import Mathlib

/-!
Verification of the GalAirport metadata-matching and import pipeline.

This file gives a shallow embedding, in Lean 4, of the pipeline code of the
repository (catalog client normalization in `src/lib/vndb.ts`, the
translation cache gateway in `src/lib/deepseek.ts` + `src/lib/database.ts`,
the enrichment and bulk-matching logic of the scan dialog, and the play-time
bookkeeping of the persistence layer), and proves the behavioural claims
about it.

Modelling conventions:
* JavaScript numbers that carry catalog ratings (`rating`, `spoiler`,
  `sexual`, `violence`) are embedded as `ℚ`; play-session durations as `ℤ`.
* `string | null` fields are embedded as `Option String`; JavaScript
  truthiness of a string (`s ? … : …`, `a || b`) is embedded by an explicit
  emptiness test, mirroring that both `null` and `""` are falsy.
* The tag-translation store (SQL table keyed by `en`) and the in-memory
  `Map` are both embedded as partial maps `String → Option String`;
  an upsert is a pointwise function update (last write per key wins).
* External effects (the DeepSeek translator, screenshot downloads, the
  per-item processing of the bulk-match loop) are embedded as explicit
  oracle arguments, with `Except` encoding a thrown error.
-/

-- ═══════════════════ Catalog data model (vndb.ts) ═══════════════════

structure VndbTitle where
  lang : String
  title : String
  latin : Option String
  official : Bool
  main : Bool
  deriving DecidableEq

structure VndbImage where
  id : String
  url : String
  dims : Nat × Nat
  sexual : ℚ
  violence : ℚ
  deriving DecidableEq

structure VndbTag where
  id : String
  name : String
  rating : ℚ
  spoiler : ℚ
  category : String
  deriving DecidableEq

structure VndbProducer where
  id : String
  name : String
  original : Option String
  deriving DecidableEq

structure VndbVn where
  id : String
  title : String
  alttitle : Option String
  titles : List VndbTitle
  released : Option String
  image : Option VndbImage
  screenshots : List VndbImage
  olang : String
  languages : List String
  platforms : List String
  rating : Option ℚ
  votecount : Nat
  length_minutes : Option Int
  description : Option String
  tags : List VndbTag
  developers : List VndbProducer
  deriving DecidableEq

-- ═══════════════════ Title selection (vndb.ts) ══════════════════════

/-- `LANG_PRIORITY` of `vndb.ts`: zh-Hans > zh-Hant > zh. -/
def langPriority : List String := ["zh-Hans", "zh-Hant", "zh"]

/-- `pickChineseTitle`: for each language in priority order, return the
title of the first entry in that language; `none` when no Chinese entry
exists. -/
def pickChineseTitle (titles : List VndbTitle) : Option String :=
  langPriority.findSome? fun lang =>
    (titles.find? fun t => t.lang == lang).map (·.title)

/-- `pickDisplayTitle`: `pickChineseTitle(vn.titles ?? []) || vn.title`;
the JS `||` falls through both on `null` and on the empty string. -/
def pickDisplayTitle (vn : VndbVn) : String :=
  match pickChineseTitle vn.titles with
  | some t => if t = "" then vn.title else t
  | none => vn.title

/-- `pickOriginalTitle`: Japanese entry, else truthy `alttitle`, else the
entry flagged `main`, else `""`. -/
def pickOriginalTitle (vn : VndbVn) : String :=
  match vn.titles.find? (fun t => t.lang == "ja") with
  | some ja => ja.title
  | none =>
    match vn.alttitle with
    | some a =>
      if a ≠ "" then a
      else
        match vn.titles.find? (·.main) with
        | some m => m.title
        | none => ""
    | none =>
      match vn.titles.find? (·.main) with
      | some m => m.title
      | none => ""

-- ═══════════════════ Tag extraction (vndb.ts) ═══════════════════════

/-- The filter of `extractTags`: `spoiler <= maxSpoiler`, category not
`"ero"`, `rating >= 1.5` (the threshold 1.5 is written `mkRat 3 2`). -/
def tagKeep (maxSpoiler : ℚ) (t : VndbTag) : Bool :=
  decide (t.spoiler ≤ maxSpoiler) && (t.category != "ero") &&
    decide (mkRat 3 2 ≤ t.rating)

/-- The comparator `(a, b) => b.rating - a.rating` of `extractTags`, read
as the order "a may stay before b" of the stable JS `Array.sort`. -/
def ratingDescR (a b : VndbTag) : Prop := b.rating ≤ a.rating

instance : DecidableRel ratingDescR :=
  fun a b => inferInstanceAs (Decidable (b.rating ≤ a.rating))

instance : IsTotal VndbTag ratingDescR := ⟨fun a b => le_total b.rating a.rating⟩

instance : IsTrans VndbTag ratingDescR := ⟨fun _ _ _ h1 h2 => le_trans h2 h1⟩

/-- `extractTags(tags, maxSpoiler = 0, maxCount = 8)` of `vndb.ts`:
filter, stable-sort by descending rating, truncate, project names.
`List.insertionSort` is the stable sort, matching JS `Array.sort`. -/
def extractTags (tags : List VndbTag) (maxSpoiler : ℚ := 0)
    (maxCount : Nat := 8) : List String :=
  ((((tags.filter (tagKeep maxSpoiler)).insertionSort ratingDescR).take
    maxCount).map (·.name))

/-- The tag-extraction rule as the specification words it: the excluded
category is written `"adult"` there (the source excludes `"ero"`). Used
only to compare the spec's wording with the source function. -/
def extractTagsClaimed (tags : List VndbTag) (maxSpoiler : ℚ := 0)
    (maxCount : Nat := 8) : List String :=
  ((((tags.filter fun t =>
      decide (t.spoiler ≤ maxSpoiler) && (t.category != "adult") &&
        decide (mkRat 3 2 ≤ t.rating)).insertionSort ratingDescR).take
    maxCount).map (·.name))

/-- The display-title rule as the specification words it: the text of the
first priority-language match, with no fallback for an empty matched text.
Used only to compare the spec's wording with the source function. -/
def claimedDisplayTitle (vn : VndbVn) : String :=
  (pickChineseTitle vn.titles).getD vn.title

/-- The original-title rule as the specification words it: a non-null
`alternateTitle` is returned even when it is the empty string. Used only to
compare the spec's wording with the source function. -/
def claimedOriginalTitle (vn : VndbVn) : String :=
  match vn.titles.find? (fun t => t.lang == "ja") with
  | some ja => ja.title
  | none =>
    match vn.alttitle with
    | some a => a
    | none =>
      match vn.titles.find? (·.main) with
      | some m => m.title
      | none => ""

/-- `formatVndbDate`: `""` for null/empty/`"TBA"`, else the date text. -/
def formatVndbDate (date : Option String) : String :=
  match date with
  | none => ""
  | some d => if d = "" ∨ d = "TBA" then "" else d

/-- `vndbRatingToLocal`: 0 for null (and 0), else `Math.round(rating/10)`.
`round` on ℚ agrees with JS `Math.round` on the non-negative API scale. -/
def vndbRatingToLocal (rating : Option ℚ) : Int :=
  match rating with
  | none => 0
  | some r => if r = 0 then 0 else round (r / 10)

-- ═══════════ Markup cleaning (cleanDescription / cleanVndbMarkup) ═══════════
--
-- The two cleaners chain six JS `String.replace(/…/g, …)` calls and a trim.
-- Each regex here is deterministic (every quantified class is bounded by the
-- delimiter that follows it), so a match attempt at a given position either
-- fails or produces exactly one match; the embedding makes that scan explicit
-- over `List Char`.

/-- Split at the first occurrence of `stop`: `some (before, rest)` with
`rest` starting at `stop`; `none` if absent (the regex then fails, as its
next literal can no longer match). Models `[^X]*` followed by `X`. -/
def upTo (stop : Char) : List Char → Option (List Char × List Char)
  | [] => none
  | c :: cs =>
    if c = stop then some ([], c :: cs)
    else (upTo stop cs).map fun p => (c :: p.1, p.2)

/-- Consume the literal `lit` from the front, returning the rest. -/
def dropLit : List Char → List Char → Option (List Char)
  | [], s => some s
  | _ :: _, [] => none
  | l :: ls, c :: cs => if c = l then dropLit ls cs else none

/-- Case-insensitive `dropLit` (for the `/…/gi` patterns). -/
def dropLitCI : List Char → List Char → Option (List Char)
  | [], s => some s
  | _ :: _, [] => none
  | l :: ls, c :: cs => if c.toLower = l.toLower then dropLitCI ls cs else none

/-- Split at the first occurrence of the literal `lit`: `some (before,
after-the-literal)`. Models the lazy `[\s\S]*?` followed by a literal. -/
def upToLit (lit : List Char) : List Char → Option (List Char × List Char)
  | [] => none
  | c :: cs =>
    match dropLit lit (c :: cs) with
    | some rest => some ([], rest)
    | none => (upToLit lit cs).map fun p => (c :: p.1, p.2)

/-- `[url=X]Y[/url]` → `Y`: consume `[url=`, `X` up to `]`, `]`, `Y` up to
`[`, then the literal `[/url]`. -/
def urlTry (s : List Char) : Option (List Char × List Char) :=
  (dropLit "[url=".toList s).bind fun s1 =>
  (upTo ']' s1).bind fun p1 =>
  (dropLit "]".toList p1.2).bind fun s2 =>
  (upTo '[' s2).bind fun p2 =>
  (dropLit "[/url]".toList p2.2).map fun s3 => (p2.1, s3)

/-- `openL … closeL` → `rep inner` (non-greedy inner match); used for the
`[spoiler]`, `[raw]` and `[code]` blocks. -/
def tagBlockTry (openL closeL : List Char) (rep : List Char → List Char)
    (s : List Char) : Option (List Char × List Char) :=
  (dropLit openL s).bind fun s1 =>
  (upToLit closeL s1).map fun p => (rep p.1, p.2)

/-- `[<openL> …]` → removed, case-insensitively; used for the
`[Edited from …]` and `[From …]` annotations. -/
def annTry (openL : List Char) (s : List Char) :
    Option (List Char × List Char) :=
  (dropLitCI openL s).bind fun s1 =>
  (upTo ']' s1).bind fun p =>
  (dropLit "]".toList p.2).map fun s2 => (([] : List Char), s2)

/-- One global-replace pass: scan left to right; on a match emit the
replacement and continue after the match (the replacement itself is not
rescanned, as in JS `replace(/…/g)`); otherwise advance one character.
`fuel` (instantiated with the input length) only bounds the recursion:
every matcher consumes at least one character, so it never runs out before
the scan completes. -/
def runRule (tryM : List Char → Option (List Char × List Char)) :
    Nat → List Char → List Char
  | 0, s => s
  | _ + 1, [] => []
  | n + 1, c :: cs =>
    match tryM (c :: cs) with
    | some (rep, rest) => rep ++ runRule tryM n rest
    | none => c :: runRule tryM n cs

/-- Apply one global-replace pass over the whole string. -/
def replaceAll (tryM : List Char → Option (List Char × List Char))
    (s : List Char) : List Char :=
  runRule tryM s.length s

/-- JS `String.prototype.trim` on the character list. -/
def trimChars (s : List Char) : List Char :=
  ((s.dropWhile Char.isWhitespace).reverse.dropWhile Char.isWhitespace).reverse

/-- The placeholder the display cleaner substitutes for spoiler blocks. -/
def spoilerMarker : String := "[剧透内容已隐藏]"

/-- The shared six-pass pipeline of both cleaners; `spoilerRep` is what a
`[spoiler]…[/spoiler]` block becomes (`cleanDescription` uses the
placeholder marker, `cleanVndbMarkup` removes the block). -/
def cleanPipeline (spoilerRep : List Char) (s : List Char) : List Char :=
  trimChars <|
  replaceAll (annTry "[From ".toList) <|
  replaceAll (annTry "[Edited from ".toList) <|
  replaceAll (tagBlockTry "[code]".toList "[/code]".toList id) <|
  replaceAll (tagBlockTry "[raw]".toList "[/raw]".toList id) <|
  replaceAll (tagBlockTry "[spoiler]".toList "[/spoiler]".toList fun _ => spoilerRep) <|
  replaceAll urlTry s

/-- `cleanDescription` of `vndb.ts` (display cleaning; null → `""`,
spoilers become the placeholder marker). -/
def cleanDescription (desc : Option String) : String :=
  match desc with
  | none => ""
  | some d => String.mk (cleanPipeline spoilerMarker.toList d.toList)

/-- `cleanVndbMarkup` of `deepseek.ts` (pre-translation cleaning; spoilers
are removed outright). -/
def cleanVndbMarkup (text : String) : String :=
  String.mk (cleanPipeline [] text.toList)

/-- JS `String.prototype.trim`, used for the `apiKey.trim()` truthiness
test of `translateTags`. -/
def trimS (s : String) : String := String.mk (trimChars s.toList)

-- ════════════ Translation cache gateway (deepseek.ts + database.ts) ═════════
--
-- The `tag_translations` table is keyed by `en` (PRIMARY KEY), and the
-- in-memory JS `Map` is keyed likewise, so both are embedded as partial maps
-- `String → Option String`; an upsert (`INSERT … ON CONFLICT … DO UPDATE`,
-- resp. `Map.set`) is a pointwise update, last write per key winning.
-- The external DeepSeek call (`invoke("deepseek_translate_tags")`) is an
-- oracle argument; `Except.error` is a thrown backend error.

/-- The tag-translation store: `en ↦ zh` when a row for `en` exists. -/
abbrev TagCache := String → Option String

/-- `getTagTranslations(tags)` of `database.ts`: the map restricted to the
queried keys (`WHERE en IN (…)`): only hits are present. -/
def getTagTranslations (c : TagCache) (tags : List String) : TagCache :=
  fun t => if tags.contains t then c t else none

/-- One upsert into the store or the in-memory map. -/
def upsertTag (c : TagCache) (en zh : String) : TagCache :=
  fun k => if k = en then some zh else c k

/-- `setTagTranslations(pairs)` of `database.ts`: sequential upserts, and
likewise the `cached.set` loop of `translateTags`. -/
def setTagTranslations : TagCache → List (String × String) → TagCache
  | c, [] => c
  | c, p :: ps => setTagTranslations (upsertTag c p.1 p.2) ps

/-- `cached.get(t) || t` of `translateTags` step 4: the JS `||` falls back
to the source tag both on a missing key and on an empty cached text. -/
def effGet (m : TagCache) (t : String) : String :=
  match m t with
  | some zh => if zh = "" then t else zh
  | none => t

/-- The uncached partition of `translateTags` step 2:
`tags.filter((t) => !cached.has(t))`. -/
def uncachedOf (c : TagCache) (tags : List String) : List String :=
  tags.filter fun t => ((getTagTranslations c tags) t).isNone

/-- The outcome of one `translateTags` call: the returned list, the store
after the call, and how many external translation calls were issued. -/
structure TranslateOut where
  result : List String
  cache : TagCache
  calls : Nat

/-- `translateTags(tags, apiKey)` of `deepseek.ts` against store `c`, with
the external translator `tr`. Mirrors the source: empty input short-cut;
cache lookup; one batch call for the uncached tags when any exist and the
trimmed credential is non-empty; on success with a same-length response,
persist the new pairs and merge them into the in-memory map; on a thrown
error or a length mismatch, keep both unchanged; finally map every tag
through `cached.get(t) || t`. -/
def translateTags (tr : List String → Except String (List String))
    (apiKey : String) (tags : List String) (c : TagCache) : TranslateOut :=
  if tags.isEmpty then ⟨tags, c, 0⟩
  else
    let cached := getTagTranslations c tags
    let uncached := uncachedOf c tags
    if uncached ≠ [] ∧ trimS apiKey ≠ "" then
      match tr uncached with
      | .error _ => ⟨tags.map (effGet cached), c, 1⟩
      | .ok translated =>
        if translated.length = uncached.length then
          let pairs := uncached.zip translated
          ⟨tags.map (effGet (setTagTranslations cached pairs)),
            setTagTranslations c pairs, 1⟩
        else ⟨tags.map (effGet cached), c, 1⟩
    else ⟨tags.map (effGet cached), c, 0⟩

-- ═══════════ Enrichment: screenshot sub-task (ScanDialog / VndbMatchDialog) ═

/-- The screenshot sub-task of the enrichment fan-out: filter to safe
ratings, take at most 4, download each independently
(`Promise.allSettled`), keep the fulfilled results in order. The
per-screenshot downloader `dl` is an oracle; `Except.error` is a rejected
download. -/
def safeScreens (ss : List VndbImage) : List VndbImage :=
  (ss.filter fun s => decide (s.sexual < 1) && decide (s.violence < 1)).take 4

/-- `screenshotsPromise` of `handleApply`: `[]` for an absent/empty
screenshot list, else the settled successes of the safe batch. Total by
construction — a rejected download never escapes (`allSettled`). -/
def screenshotsTask (ss : List VndbImage)
    (dl : VndbImage → Except String String) : List String :=
  if ss.isEmpty then []
  else
    ((safeScreens ss).map dl).filterMap fun r =>
      match r with
      | .ok path => some path
      | .error _ => none

-- ═══════════════ Import pipeline (ScanDialog.tsx) ═══════════════════════════

inductive ItemStatus where
  | pending | matching | matched | failed | importing | done
  deriving DecidableEq

structure DetectedGame where
  title : String
  exe_path : String
  install_path : String
  engine : Option String
  deriving DecidableEq

/-- One pipeline item of `ScanDialog` (transient, persisted only on
commit). -/
structure ImportItem where
  detected : DetectedGame
  vndb : Option VndbVn
  candidates : List VndbVn
  coverPath : String
  screenshotPaths : List String
  translatedDesc : String
  translatedTags : List String
  status : ItemStatus
  error : Option String
  deriving DecidableEq

/-- A freshly detected item as `handleAddFolders` constructs it. -/
def newImportItem (g : DetectedGame) : ImportItem :=
  ⟨g, none, [], "", [], "", [], .pending, none⟩

/-- `clearMatch`: reset only the matched record and the cover, set
`failed` with the "manually skipped" message. -/
def clearMatch (item : ImportItem) : ImportItem :=
  { item with
    vndb := none, coverPath := "", status := .failed,
    error := some "手动跳过" }

inductive PlayStatus where
  | unplayed | playing | finished | shelved
  deriving DecidableEq

/-- `GameFormData` of `types/game.ts` (the shape handed to persistence). -/
structure GameFormData where
  title : String
  title_original : String
  vndb_id : String
  developer : String
  release_date : String
  exe_path : String
  install_path : String
  save_path : String
  cover_path : String
  screenshots : List String
  tags : List String
  play_status : PlayStatus
  rating : Nat
  vndb_rating : ℚ
  vndb_votecount : Nat
  length_minutes : Int
  notes : String
  engine : String
  deriving DecidableEq

/-- The record `handleImport` builds for one item (the commit object omits
`vndb_votecount`/`length_minutes`; their consumers coerce the missing
values to 0, embedded here as the explicit 0). -/
def toImportRecord (item : ImportItem) : GameFormData :=
  let vn := item.vndb
  let developer :=
    match vn with
    | some v =>
      if v.developers.length > 0 then
        String.intercalate ", " (v.developers.map (·.name))
      else ""
    | none => ""
  let vndbTags :=
    match vn with
    | some v => extractTags v.tags 0 8
    | none => []
  let allTags :=
    if item.translatedTags.length > 0 then item.translatedTags else vndbTags
  { title := match vn with
      | some v => pickDisplayTitle v
      | none => item.detected.title,
    title_original := match vn with
      | some v => pickOriginalTitle v
      | none => "",
    vndb_id := match vn with
      | some v => v.id
      | none => "",
    developer := developer,
    release_date := match vn with
      | some v => formatVndbDate v.released
      | none => "",
    exe_path := item.detected.exe_path,
    install_path := item.detected.install_path,
    save_path := "",
    cover_path := item.coverPath,
    screenshots := item.screenshotPaths,
    tags := allTags,
    play_status := .unplayed,
    rating := 0,
    vndb_rating := match vn with
      | some v => v.rating.getD 0
      | none => 0,
    vndb_votecount := 0,
    length_minutes := 0,
    notes :=
      if item.translatedDesc ≠ "" then item.translatedDesc
      else
        match vn with
        | some v =>
          match v.description with
          | some d => if d ≠ "" then cleanDescription (some d) else ""
          | none => ""
        | none => "",
    engine := item.detected.engine.getD "" }

/-- The commit phase: one importable record per item, regardless of
status. -/
def commitAll (items : List ImportItem) : List GameFormData :=
  items.map toImportRecord

-- ─── Bulk matching loop (startMatching) ───

/-- What one iteration of the bulk-match loop observed for its item: the
try-block's result (matched record or none, candidates, and the four
settled enrichment values), or a thrown exception. -/
inductive MatchOutcome where
  | ok (vn : Option VndbVn) (candidates : List VndbVn) (coverPath : String)
      (screenshotPaths : List String) (translatedDesc : String)
      (translatedTags : List String)
  | exn (err : String)

/-- How the loop body rewrites its item: the success branch stores the
results and sets `matched`/`failed` ("VNDB 未找到匹配"); the catch branch
sets `failed` with the exception detail and touches nothing else. -/
def applyOutcome (item : ImportItem) : MatchOutcome → ImportItem
  | .ok vn cands cover shots desc tags =>
    { item with
      vndb := vn, candidates := cands, coverPath := cover,
      screenshotPaths := shots, translatedDesc := desc,
      translatedTags := tags,
      status := if vn.isSome then .matched else .failed,
      error := if vn.isSome then none else some "VNDB 未找到匹配" }
  | .exn e =>
    { item with
      status := .failed, error := some ("匹配失败: " ++ e) }

/-- `prev.map((it, idx) => idx === i ? f(it) : it)`: rewrite position `i`
only. -/
def setAt {α : Type} : List α → Nat → (α → α) → List α
  | [], _, _ => []
  | x :: xs, 0, f => f x :: xs
  | x :: xs, n + 1, f => x :: setAt xs n f

/-- Events the bulk-match loop emits: item `i` is processed, or the fixed
inter-item pause runs (`setTimeout(r, 500)`). -/
inductive MatchEv where
  | process (i : Nat)
  | delayMs (ms : Nat)
  deriving DecidableEq

/-- The body of `for (let i = 0; i < total; i++)`: `k` counts the
remaining iterations (`k + i = total`). Each iteration marks item `i`
`matching`, rewrites it with its outcome, and pauses 500ms unless it was
the last item. -/
def matchGo (outcome : Nat → MatchOutcome) (total : Nat) :
    Nat → Nat → List ImportItem → List ImportItem × List MatchEv
  | 0, _, cur => (cur, [])
  | k + 1, i, cur =>
    let cur1 := setAt cur i fun it => { it with status := ItemStatus.matching }
    let cur2 := setAt cur1 i fun it => applyOutcome it (outcome i)
    let rest := matchGo outcome total k (i + 1) cur2
    (rest.1, MatchEv.process i ::
      ((if i < total - 1 then [MatchEv.delayMs 500] else []) ++ rest.2))

/-- `startMatching` of `ScanDialog`: nothing to do on an empty list, else
run the loop over all items. -/
def startMatching (items : List ImportItem) (outcome : Nat → MatchOutcome) :
    List ImportItem × List MatchEv :=
  if items.length = 0 then (items, [])
  else matchGo outcome items.length items.length 0 items

-- ═══════════════ Persistence: games and play sessions (database.ts) ═════════

/-- One row of the `games` table: the form-data columns, plus
`total_playtime` (not a form field — no update path can set it directly)
and the timestamps. -/
structure GameRow where
  id : String
  data : GameFormData
  total_playtime : Int
  created_at : String
  updated_at : String

/-- One row of the `play_sessions` table. -/
structure SessionRow where
  id : String
  game_id : String
  start_time : String
  end_time : Option String
  duration : Int

structure DbState where
  games : List GameRow
  sessions : List SessionRow

/-- `addGame`: INSERT with `total_playtime` literally 0. -/
def addGame (s : DbState) (id now : String) (data : GameFormData) : DbState :=
  { s with games := s.games ++ [⟨id, data, 0, now, now⟩] }

/-- `updateGame`: SET the supplied `Partial<GameFormData>` columns (the
patch can only touch form-data columns) and bump `updated_at`, on every
row matching the id. -/
def updateGame (s : DbState) (id now : String)
    (patch : GameFormData → GameFormData) : DbState :=
  { s with games := s.games.map fun g =>
      if g.id = id then { g with data := patch g.data, updated_at := now }
      else g }

/-- `deleteGame`: DELETE the game row; the `play_sessions` foreign key is
declared `ON DELETE CASCADE`. -/
def deleteGame (s : DbState) (id : String) : DbState :=
  { games := s.games.filter fun g => g.id ≠ id,
    sessions := s.sessions.filter fun r => r.game_id ≠ id }

/-- `addPlaySession`: INSERT the session row, then
`UPDATE games SET total_playtime = total_playtime + duration`. -/
def addPlaySession (s : DbState) (sid gameId startT endT now : String)
    (duration : Int) : DbState :=
  { games := s.games.map fun g =>
      if g.id = gameId then
        { g with
          total_playtime := g.total_playtime + duration,
          updated_at := now }
      else g,
    sessions := s.sessions ++ [⟨sid, gameId, startT, some endT, duration⟩] }

/-- The persistence operations that touch the `games` or `play_sessions`
tables. -/
inductive LibOp where
  | newGame (id now : String) (data : GameFormData)
  | update (id now : String) (patch : GameFormData → GameFormData)
  | delete (id : String)
  | play (sid gid startT endT now : String) (d : Int)

def applyLibOp (s : DbState) : LibOp → DbState
  | .newGame id now data => addGame s id now data
  | .update id now patch => updateGame s id now patch
  | .delete id => deleteGame s id
  | .play sid gid st et now d => addPlaySession s sid gid st et now d

def applyLibOps (s : DbState) (ops : List LibOp) : DbState :=
  ops.foldl applyLibOp s

/-- The stored total of the entry `getGameById` would return. -/
def totalOf (s : DbState) (gid : String) : Option Int :=
  (s.games.find? fun g => g.id = gid).map (·.total_playtime)

/-- The sum of the persisted session durations of one entry. -/
def sessionSum (s : DbState) (gid : String) : Int :=
  ((s.sessions.filter fun r => r.game_id = gid).map (·.duration)).sum

/-- The durations of the play-session inserts for `gid` in an operation
sequence. -/
def playDurs (ops : List LibOp) (gid : String) : List Int :=
  ops.filterMap fun op =>
    match op with
    | .play _ g _ _ _ d => if g = gid then some d else none
    | _ => none

-- ═══════════════ Concrete fixtures for the checks below ═════════════════════

/-- A catalog record with every field empty. -/
def emptyVn : VndbVn :=
  ⟨"", "", none, [], none, none, [], "", [], [], none, 0, none, none, [], []⟩

/-- A record whose only Chinese entry has empty text. -/
def vnEmptyZh : VndbVn :=
  { emptyVn with
    title := "Default",
    titles := [⟨"zh-Hans", "", none, true, false⟩] }

/-- A record with no Japanese entry, an empty (but non-null)
`alttitle`, and a primary-flagged entry. -/
def vnEmptyAlt : VndbVn :=
  { emptyVn with
    alttitle := some "",
    titles := [⟨"en", "Primary", none, true, true⟩] }

/-- A record carrying a Simplified-Chinese and a Japanese title entry. -/
def vnZhJa : VndbVn :=
  { emptyVn with
    titles := [⟨"zh-Hans", "游戏A", none, true, false⟩,
               ⟨"ja", "ゲームA", none, true, true⟩] }

/-- A translator oracle that appends `中` to every tag. -/
def demoTr : List String → Except String (List String) :=
  fun l => .ok (l.map (· ++ "中"))

/-- A translator oracle that always answers a two-element list. -/
def badTr : List String → Except String (List String) :=
  fun _ => .ok ["x", "y"]

/-- A store holding only the pair `b ↦ 乙`. -/
def demoCache : TagCache := fun t => if t = "b" then some "乙" else none

/-- The empty store. -/
def emptyCache : TagCache := fun _ => none

/-- A safe-rated screenshot named `n`. -/
def shot (n : String) : VndbImage := ⟨n, n ++ ".jpg", (800, 600), 0, 0⟩

/-- Four safe screenshots. -/
def demoShots : List VndbImage := [shot "s1", shot "s2", shot "s3", shot "s4"]

/-- A downloader oracle that rejects exactly screenshot `s2`. -/
def demoDl : VndbImage → Except String String :=
  fun s => if s.id = "s2" then .error "网络错误" else .ok (s.id ++ ".png")

/-- Two freshly detected items. -/
def itemA : ImportItem := newImportItem ⟨"GameA", "C:/a/a.exe", "C:/a", some "krkr"⟩

def itemB : ImportItem := newImportItem ⟨"GameB", "C:/b/b.exe", "C:/b", none⟩

/-- A bulk-match oracle: item 0 matches, item 1 throws. -/
def demoOutcome : Nat → MatchOutcome :=
  fun i =>
    if i = 0 then .ok (some vnZhJa) [vnZhJa] "c.jpg" ["s.png"] "desc" ["tag"]
    else .exn "超时"

/-- A matched item carrying full enrichment results. -/
def matchedItem : ImportItem :=
  { detected := ⟨"FolderGame", "C:/g/start.exe", "C:/g", some "kirikiri"⟩,
    vndb := some vnZhJa,
    candidates := [vnZhJa],
    coverPath := "covers/v9.jpg",
    screenshotPaths := ["shots/1.jpg", "shots/2.jpg"],
    translatedDesc := "译文简介",
    translatedTags := ["萌", "恋爱"],
    status := .matched,
    error := none }

/-- An empty persistence state and a form fixture. -/
def emptyDb : DbState := ⟨[], []⟩

def demoForm : GameFormData :=
  ⟨"T", "", "", "", "", "C:/g/start.exe", "C:/g", "", "", [], [],
    .unplayed, 0, 0, 0, 0, "", ""⟩

-- ═══════════════════════════ Theorems ═══════════════════════════════════════

/-- `tagKeep` in propositional form. -/
lemma tagKeep_iff (m : ℚ) (t : VndbTag) :
    tagKeep m t = true ↔
      t.spoiler ≤ m ∧ t.category ≠ "ero" ∧ mkRat 3 2 ≤ t.rating := by
  simp [tagKeep, Bool.and_assoc, and_assoc]

/-- C4 (counterexample). The claim says `extractTags` excludes category
`"adult"`; the source excludes category `"ero"`. On a list with one tag of
each category (equal rating 2, spoiler 0) the source keeps the `"adult"`
tag and drops the `"ero"` tag — the opposite of the claimed rule. -/
theorem c4_counterexample :
    extractTags
        [⟨"g1", "nukige", 2, 0, "adult"⟩, ⟨"g2", "eroge", 2, 0, "ero"⟩] 0 8
      = ["nukige"] ∧
    extractTagsClaimed
        [⟨"g1", "nukige", 2, 0, "adult"⟩, ⟨"g2", "eroge", 2, 0, "ero"⟩] 0 8
      = ["eroge"] ∧
    extractTags
        [⟨"g1", "nukige", 2, 0, "adult"⟩, ⟨"g2", "eroge", 2, 0, "ero"⟩] 0 8
      ≠ extractTagsClaimed
        [⟨"g1", "nukige", 2, 0, "adult"⟩, ⟨"g2", "eroge", 2, 0, "ero"⟩] 0 8 := by
  refine ⟨?_, ?_, ?_⟩ <;> decide

/-- C4 (amended: the excluded category is `"ero"`, not `"adult"`).
With the default threshold 0 and default maxCount 8, `extractTags`
returns at most 8 names; every returned name belongs to a tag with
`spoiler ≤ 0`, category ≠ `"ero"` and `rating ≥ 1.5`; the returned names
follow a rating-descending arrangement of exactly the kept tags; when at
most 8 tags are kept, the result is a permutation of all of their names
and every qualifying tag's name appears; and in general the result is
the name image of the 8-prefix of a rating-descending permutation of
ALL kept tags — its length is `min 8 (kept count)`, and every kept tag
left out by the truncation is rated no higher than every chosen one
(sort-then-truncate, so the top-rated 8 survive). -/
theorem c4_extractTags_amended (tags : List VndbTag) :
    (extractTags tags 0 8).length ≤ 8 ∧
    (∀ n ∈ extractTags tags 0 8, ∃ t ∈ tags, t.name = n ∧ t.spoiler ≤ 0 ∧
      t.category ≠ "ero" ∧ mkRat 3 2 ≤ t.rating) ∧
    (∃ chosen : List VndbTag,
      extractTags tags 0 8 = chosen.map (·.name) ∧
      chosen.Pairwise (fun a b => b.rating ≤ a.rating) ∧
      ∀ t ∈ chosen, t ∈ tags ∧ tagKeep 0 t = true) ∧
    ((tags.filter (tagKeep 0)).length ≤ 8 →
      (extractTags tags 0 8).Perm ((tags.filter (tagKeep 0)).map (·.name)) ∧
      ∀ t ∈ tags, t.spoiler ≤ 0 → t.category ≠ "ero" → mkRat 3 2 ≤ t.rating →
        t.name ∈ extractTags tags 0 8) ∧
    (∃ chosen dropped : List VndbTag,
      extractTags tags 0 8 = chosen.map (·.name) ∧
      chosen.length = min 8 (tags.filter (tagKeep 0)).length ∧
      chosen.Pairwise (fun a b => b.rating ≤ a.rating) ∧
      (chosen ++ dropped).Perm (tags.filter (tagKeep 0)) ∧
      ∀ a ∈ chosen, ∀ b ∈ dropped, b.rating ≤ a.rating) := by
  have hperm := List.perm_insertionSort ratingDescR (tags.filter (tagKeep 0))
  have hsort := List.sorted_insertionSort ratingDescR (tags.filter (tagKeep 0))
  refine ⟨?_, ?_, ?_, ?_, ?_⟩
  · simp [extractTags]
  · intro n hn
    obtain ⟨t, ht, rfl⟩ := List.mem_map.1 hn
    have ht2 : t ∈ (tags.filter (tagKeep 0)).insertionSort ratingDescR :=
      List.Sublist.mem ht (List.take_sublist _ _)
    have ht3 := hperm.mem_iff.1 ht2
    obtain ⟨htags, hk⟩ := List.mem_filter.1 ht3
    obtain ⟨h1, h2, h3⟩ := (tagKeep_iff 0 t).1 hk
    exact ⟨t, htags, rfl, h1, h2, h3⟩
  · refine ⟨((tags.filter (tagKeep 0)).insertionSort ratingDescR).take 8,
      rfl, ?_, ?_⟩
    · exact List.Pairwise.sublist (List.take_sublist _ _) hsort
    · intro t ht
      have ht2 : t ∈ (tags.filter (tagKeep 0)).insertionSort ratingDescR :=
        List.Sublist.mem ht (List.take_sublist _ _)
      exact List.mem_filter.1 (hperm.mem_iff.1 ht2)
  · intro hlen
    have hlen2 : ((tags.filter (tagKeep 0)).insertionSort ratingDescR).length ≤ 8 := by
      rwa [hperm.length_eq]
    have htake := List.take_of_length_le hlen2
    constructor
    · show ((((tags.filter (tagKeep 0)).insertionSort ratingDescR).take 8).map
        (·.name)).Perm _
      rw [htake]
      exact hperm.map _
    · intro t htags h1 h2 h3
      have hk : tagKeep 0 t = true := (tagKeep_iff 0 t).2 ⟨h1, h2, h3⟩
      have hmem : t ∈ tags.filter (tagKeep 0) := List.mem_filter.2 ⟨htags, hk⟩
      show t.name ∈ (((tags.filter (tagKeep 0)).insertionSort ratingDescR).take 8).map
        (·.name)
      rw [htake]
      exact List.mem_map.2 ⟨t, hperm.mem_iff.2 hmem, rfl⟩
  · refine ⟨((tags.filter (tagKeep 0)).insertionSort ratingDescR).take 8,
      ((tags.filter (tagKeep 0)).insertionSort ratingDescR).drop 8,
      rfl, ?_, ?_, ?_, ?_⟩
    · rw [List.length_take, hperm.length_eq]
    · exact List.Pairwise.sublist (List.take_sublist _ _) hsort
    · rw [List.take_append_drop]
      exact hperm
    · have hcross := (List.pairwise_append.1
        (show List.Pairwise ratingDescR
            ((((tags.filter (tagKeep 0)).insertionSort ratingDescR).take 8) ++
              (((tags.filter (tagKeep 0)).insertionSort ratingDescR).drop 8)) by
          rw [List.take_append_drop]
          exact hsort)).2.2
      intro a ha b hb
      exact hcross a ha b hb

/-- C4 (witness): the amended theorem applied to a one-tag list yields
that the qualifying tag's name is extracted; and on a nine-tag list
(all qualifying, given in ascending rating order) the truncation keeps
exactly the top-rated 8, in descending order. -/
theorem c4_extractTags_amended_witness :
    "萌え" ∈ extractTags [⟨"g5", "萌え", 2, 0, "cont"⟩] 0 8 ∧
    extractTags
        [⟨"t9", "n9", 2, 0, "cont"⟩, ⟨"t8", "n8", 3, 0, "cont"⟩,
         ⟨"t7", "n7", 4, 0, "cont"⟩, ⟨"t6", "n6", 5, 0, "cont"⟩,
         ⟨"t5", "n5", 6, 0, "cont"⟩, ⟨"t4", "n4", 7, 0, "cont"⟩,
         ⟨"t3", "n3", 8, 0, "cont"⟩, ⟨"t2", "n2", 9, 0, "cont"⟩,
         ⟨"t1", "n1", 10, 0, "cont"⟩] 0 8
      = ["n1", "n2", "n3", "n4", "n5", "n6", "n7", "n8"] :=
  ⟨((c4_extractTags_amended [⟨"g5", "萌え", 2, 0, "cont"⟩]).2.2.2.1
      (by decide)).2
    ⟨"g5", "萌え", 2, 0, "cont"⟩ (by decide) (by decide) (by decide) (by decide),
   by decide⟩

/-- C5 (counterexample). The claim says `pickDisplayTitle` always returns
the matched priority-language entry's text; on a record whose only
Chinese entry has empty text the source falls back to the default title
(JS `||` treats `""` as falsy). Likewise `pickOriginalTitle` skips an
empty (non-null) `alttitle` and goes on to the primary-flagged entry,
while the claim's chain would return the `alttitle`. -/
theorem c5_counterexample :
    pickDisplayTitle vnEmptyZh = "Default" ∧
    claimedDisplayTitle vnEmptyZh = "" ∧
    pickDisplayTitle vnEmptyZh ≠ claimedDisplayTitle vnEmptyZh ∧
    pickOriginalTitle vnEmptyAlt = "Primary" ∧
    claimedOriginalTitle vnEmptyAlt = "" ∧
    pickOriginalTitle vnEmptyAlt ≠ claimedOriginalTitle vnEmptyAlt := by
  refine ⟨?_, ?_, ?_, ?_, ?_, ?_⟩ <;> decide

/-- C5 (amended: the display title falls back to the default title also
when the matched entry's text is empty, and a non-null but empty
`alternateTitle` is skipped). `pickChineseTitle` scans the priority list
Simplified-Chinese, Traditional-Chinese, generic-Chinese and returns the
first entry found; `pickDisplayTitle` returns that text unless it is
missing or empty, then the default title; `pickOriginalTitle` returns the
Japanese entry's text, else a non-empty `alttitle`, else the
primary-flagged entry's text, else `""`; and on a record whose titles are
exactly a Simplified-Chinese "游戏A" entry and a Japanese "ゲームA" entry,
in either order, the two pickers return "游戏A" and "ゲームA". -/
theorem c5_title_selection_amended :
    (∀ vn t, pickChineseTitle vn.titles = some t → t ≠ "" →
      pickDisplayTitle vn = t) ∧
    (∀ vn, (pickChineseTitle vn.titles = none ∨
        pickChineseTitle vn.titles = some "") → pickDisplayTitle vn = vn.title) ∧
    (∀ ts t, ts.find? (fun x => x.lang == "zh-Hans") = some t →
      pickChineseTitle ts = some t.title) ∧
    (∀ ts t, ts.find? (fun x => x.lang == "zh-Hans") = none →
      ts.find? (fun x => x.lang == "zh-Hant") = some t →
      pickChineseTitle ts = some t.title) ∧
    (∀ ts t, ts.find? (fun x => x.lang == "zh-Hans") = none →
      ts.find? (fun x => x.lang == "zh-Hant") = none →
      ts.find? (fun x => x.lang == "zh") = some t →
      pickChineseTitle ts = some t.title) ∧
    (∀ ts : List VndbTitle, (∀ t ∈ ts, t.lang ∉ langPriority) →
      pickChineseTitle ts = none) ∧
    (∀ vn j, vn.titles.find? (fun t => t.lang == "ja") = some j →
      pickOriginalTitle vn = j.title) ∧
    (∀ vn a, vn.titles.find? (fun t => t.lang == "ja") = none →
      vn.alttitle = some a → a ≠ "" → pickOriginalTitle vn = a) ∧
    (∀ vn m, vn.titles.find? (fun t => t.lang == "ja") = none →
      (vn.alttitle = none ∨ vn.alttitle = some "") →
      vn.titles.find? (·.main) = some m → pickOriginalTitle vn = m.title) ∧
    (∀ vn, vn.titles.find? (fun t => t.lang == "ja") = none →
      (vn.alttitle = none ∨ vn.alttitle = some "") →
      vn.titles.find? (·.main) = none → pickOriginalTitle vn = "") ∧
    (∀ vn e1 e2, e1.lang = "zh-Hans" → e1.title = "游戏A" →
      e2.lang = "ja" → e2.title = "ゲームA" →
      (vn.titles = [e1, e2] ∨ vn.titles = [e2, e1]) →
      pickDisplayTitle vn = "游戏A" ∧ pickOriginalTitle vn = "ゲームA") := by
  refine ⟨?_, ?_, ?_, ?_, ?_, ?_, ?_, ?_, ?_, ?_, ?_⟩
  · intro vn t h hne
    simp [pickDisplayTitle, h, hne]
  · intro vn h
    rcases h with h | h <;> simp [pickDisplayTitle, h]
  · intro ts t h
    simp [pickChineseTitle, langPriority, h]
  · intro ts t h1 h2
    simp [pickChineseTitle, langPriority, h1, h2]
  · intro ts t h1 h2 h3
    simp [pickChineseTitle, langPriority, h1, h2, h3]
  · intro ts h
    have hfind : ∀ lang ∈ langPriority,
        ts.find? (fun x => x.lang == lang) = none := by
      intro lang hlang
      rw [List.find?_eq_none]
      intro x hx
      simp only [beq_iff_eq]
      intro hEq
      exact h x hx (hEq ▸ hlang)
    simp only [langPriority] at hfind
    simp [pickChineseTitle, langPriority,
      hfind "zh-Hans" (by simp), hfind "zh-Hant" (by simp), hfind "zh" (by simp)]
  · intro vn j h
    simp [pickOriginalTitle, h]
  · intro vn a h1 h2 h3
    simp [pickOriginalTitle, h1, h2, h3]
  · intro vn m h1 h2 h3
    rcases h2 with h2 | h2 <;> simp [pickOriginalTitle, h1, h2, h3]
  · intro vn h1 h2 h3
    rcases h2 with h2 | h2 <;> simp [pickOriginalTitle, h1, h2, h3]
  · intro vn e1 e2 hl1 ht1 hl2 ht2 hcase
    rcases hcase with h | h <;>
      simp [pickDisplayTitle, pickOriginalTitle, pickChineseTitle,
        langPriority, h, List.find?_cons, hl1, ht1, hl2, ht2]

/-- C5 (witness): the amended theorem applied to the two-entry record
`vnZhJa` of the claim's scenario. -/
theorem c5_title_selection_amended_witness :
    pickDisplayTitle vnZhJa = "游戏A" ∧ pickOriginalTitle vnZhJa = "ゲームA" :=
  c5_title_selection_amended.2.2.2.2.2.2.2.2.2.2 vnZhJa
    ⟨"zh-Hans", "游戏A", none, true, false⟩ ⟨"ja", "ゲームA", none, true, true⟩
    rfl rfl rfl rfl (Or.inl rfl)

-- ─── C6 helper lemmas: the cleaning passes ───

lemma toLower_ne_lbrack {c : Char} (h : c ≠ '[') : c.toLower ≠ '[' := by
  intro hEq
  unfold Char.toLower at hEq
  simp only at hEq
  by_cases hc : c.toNat ≥ 65 ∧ c.toNat ≤ 90
  · rw [if_pos hc] at hEq
    obtain ⟨h1, h2⟩ := hc
    generalize hcn : c.toNat = n at h1 h2 hEq
    interval_cases n <;> exact absurd hEq (by decide)
  · rw [if_neg hc] at hEq
    exact h hEq

lemma dropLit_append (lit rest : List Char) :
    dropLit lit (lit ++ rest) = some rest := by
  induction lit with
  | nil => rfl
  | cons l ls ih => simp [dropLit, ih]

lemma upTo_split {stop : Char} {x : List Char} (rest : List Char)
    (hx : stop ∉ x) : upTo stop (x ++ stop :: rest) = some (x, stop :: rest) := by
  induction x with
  | nil => simp [upTo]
  | cons c cs ih =>
    have hc : c ≠ stop := fun h => hx (h ▸ List.mem_cons_self c cs)
    have hcs : stop ∉ cs := fun h => hx (List.mem_cons_of_mem c h)
    simp [upTo, hc, ih hcs]

lemma urlTry_none {c : Char} (cs : List Char) (h : c ≠ '[') :
    urlTry (c :: cs) = none := by
  have hd : dropLit ['[', 'u', 'r', 'l', '='] (c :: cs) = none := by
    simp [dropLit, h]
  simp [urlTry, hd]

lemma tagBlockTry_none (ls cl : List Char) (rep : List Char → List Char)
    {c : Char} (cs : List Char) (h : c ≠ '[') :
    tagBlockTry ('[' :: ls) cl rep (c :: cs) = none := by
  simp [tagBlockTry, dropLit, h]

lemma annTry_none (ls : List Char) {c : Char} (cs : List Char) (h : c ≠ '[') :
    annTry ('[' :: ls) (c :: cs) = none := by
  have hne : ¬ c.toLower = '[' := toLower_ne_lbrack h
  simp [annTry, dropLitCI, hne]

lemma runRule_nil (tryM : List Char → Option (List Char × List Char))
    (fuel : Nat) : runRule tryM fuel [] = [] := by
  cases fuel <;> rfl

/-- A pass whose matcher needs a `[` to start leaves a `[`-free text
unchanged. -/
lemma replaceAll_no_lbrack {tryM : List Char → Option (List Char × List Char)}
    (htry : ∀ (c : Char) (cs : List Char), c ≠ '[' → tryM (c :: cs) = none)
    {s : List Char} (hs : '[' ∉ s) : replaceAll tryM s = s := by
  unfold replaceAll
  induction s with
  | nil => rfl
  | cons c cs ih =>
    have hc : c ≠ '[' := fun h => hs (h ▸ List.mem_cons_self c cs)
    have hcs : '[' ∉ cs := fun h => hs (List.mem_cons_of_mem c h)
    show runRule tryM (cs.length + 1) (c :: cs) = c :: cs
    rw [runRule, htry c cs hc]
    exact congrArg (c :: ·) (ih hcs)

/-- A pass whose single match spans the whole text yields the
replacement. -/
lemma replaceAll_total_match {tryM : List Char → Option (List Char × List Char)}
    {c : Char} {cs rep : List Char} (h : tryM (c :: cs) = some (rep, [])) :
    replaceAll tryM (c :: cs) = rep := by
  unfold replaceAll
  show runRule tryM (cs.length + 1) (c :: cs) = rep
  rw [runRule, h]
  simp [runRule_nil]

lemma urlTry_full {x y : List Char} (hx : ']' ∉ x) (hy : '[' ∉ y) :
    urlTry ("[url=".toList ++ (x ++ (']' :: (y ++ "[/url]".toList))))
      = some (y, []) := by
  unfold urlTry
  rw [dropLit_append, Option.some_bind, upTo_split _ hx, Option.some_bind]
  have h1 : dropLit "]".toList (']' :: (y ++ "[/url]".toList))
      = some (y ++ "[/url]".toList) :=
    dropLit_append [']'] (y ++ "[/url]".toList)
  rw [h1, Option.some_bind]
  have h2 : upTo '[' (y ++ "[/url]".toList)
      = some (y, '[' :: "/url]".toList) := by
    have heq : y ++ "[/url]".toList = y ++ '[' :: "/url]".toList := rfl
    rw [heq]
    exact upTo_split _ hy
  rw [h2, Option.some_bind]
  have h3 : dropLit "[/url]".toList ('[' :: "/url]".toList) = some [] := by
    have heq : ('[' :: "/url]".toList : List Char) = "[/url]".toList ++ [] := by
      simp
    rw [heq]
    exact dropLit_append _ _
  rw [h3, Option.map_some']

/-- Cleaning a pure `[url=X]Y[/url]` block: the url pass unwraps it to `Y`
and the later passes cannot match inside a `[`-free `Y`. -/
lemma cleanPipeline_url (m : List Char) {x y : List Char}
    (hx : ']' ∉ x) (hy : '[' ∉ y) :
    cleanPipeline m ("[url=".toList ++ (x ++ (']' :: (y ++ "[/url]".toList))))
      = trimChars y := by
  have hmatch :
      urlTry ('[' :: ("url=".toList ++ (x ++ (']' :: (y ++ "[/url]".toList)))))
        = some (y, []) := urlTry_full hx hy
  have hurl :
      replaceAll urlTry
        ("[url=".toList ++ (x ++ (']' :: (y ++ "[/url]".toList)))) = y :=
    replaceAll_total_match hmatch
  have hsp : replaceAll
      (tagBlockTry "[spoiler]".toList "[/spoiler]".toList fun _ => m) y = y :=
    replaceAll_no_lbrack
      (fun c cs h => tagBlockTry_none "spoiler]".toList _ _ cs h) hy
  have hraw : replaceAll
      (tagBlockTry "[raw]".toList "[/raw]".toList id) y = y :=
    replaceAll_no_lbrack
      (fun c cs h => tagBlockTry_none "raw]".toList _ _ cs h) hy
  have hcode : replaceAll
      (tagBlockTry "[code]".toList "[/code]".toList id) y = y :=
    replaceAll_no_lbrack
      (fun c cs h => tagBlockTry_none "code]".toList _ _ cs h) hy
  have hed : replaceAll (annTry "[Edited from ".toList) y = y :=
    replaceAll_no_lbrack
      (fun c cs h => annTry_none "Edited from ".toList cs h) hy
  have hfr : replaceAll (annTry "[From ".toList) y = y :=
    replaceAll_no_lbrack
      (fun c cs h => annTry_none "From ".toList cs h) hy
  unfold cleanPipeline
  rw [hurl, hsp, hraw, hcode, hed, hfr]

/-- C6. Both cleaners replace `[url=X]Y[/url]` by `Y` (proved for every
`X` without `]` and `Y` without `[`, the shapes the regex accepts as one
match), unwrap `[raw]`/`[code]` blocks, strip `[Edited from …]` and
`[From …]` annotations case-insensitively, and trim surrounding
whitespace; a spoiler block becomes the placeholder marker under the
display cleaner `cleanDescription` and is removed outright by the
pre-translation cleaner `cleanVndbMarkup`; and on the claim's example the
display cleaner yields `"Hello world"` followed by the placeholder, with
the trailing annotation stripped. -/
theorem c6_markup_cleaning :
    (∀ x y : List Char, ']' ∉ x → '[' ∉ y →
      cleanDescription (some (String.mk
          ("[url=".toList ++ (x ++ (']' :: (y ++ "[/url]".toList))))))
        = String.mk (trimChars y)) ∧
    (∀ x y : List Char, ']' ∉ x → '[' ∉ y →
      cleanVndbMarkup (String.mk
          ("[url=".toList ++ (x ++ (']' :: (y ++ "[/url]".toList)))))
        = String.mk (trimChars y)) ∧
    cleanDescription
        (some "Hello [url=http://x]world[/url] [spoiler]secret[/spoiler] [From Wikipedia]")
      = "Hello world " ++ spoilerMarker ∧
    cleanDescription
        (some "Hello [url=http://x]world[/url] [spoiler]secret[/spoiler] [From Wikipedia]")
      = "Hello world [剧透内容已隐藏]" ∧
    cleanVndbMarkup
        "Hello [url=http://x]world[/url] [spoiler]secret[/spoiler] [From Wikipedia]"
      = "Hello world" ∧
    cleanDescription (some "[spoiler]secret[/spoiler]") = spoilerMarker ∧
    cleanVndbMarkup "[spoiler]secret[/spoiler]" = "" ∧
    cleanDescription (some "a [raw]x*y[/raw] b") = "a x*y b" ∧
    cleanVndbMarkup "a [raw]x*y[/raw] b" = "a x*y b" ∧
    cleanDescription (some "c [code]z+1[/code]") = "c z+1" ∧
    cleanVndbMarkup "c [code]z+1[/code]" = "c z+1" ∧
    cleanDescription (some "d [EDITED FROM wiki]") = "d" ∧
    cleanVndbMarkup "d [eDiTeD FrOm wiki]" = "d" ∧
    cleanDescription (some "e [FROM Encubed]") = "e" ∧
    cleanVndbMarkup "e [from Encubed]" = "e" ∧
    cleanDescription (some "  padded text  ") = "padded text" ∧
    cleanVndbMarkup "  padded text  " = "padded text" ∧
    cleanDescription none = "" := by
  refine ⟨?_, ?_, ?_, ?_, ?_, ?_, ?_, ?_, ?_, ?_, ?_, ?_, ?_, ?_, ?_, ?_,
    ?_, ?_⟩
  · intro x y hx hy
    show String.mk (cleanPipeline spoilerMarker.toList
        (String.mk ("[url=".toList ++ (x ++ (']' :: (y ++ "[/url]".toList))))).toList)
      = String.mk (trimChars y)
    exact congrArg String.mk (cleanPipeline_url _ hx hy)
  · intro x y hx hy
    exact congrArg String.mk (cleanPipeline_url _ hx hy)
  all_goals decide

/-- C6 (witness): the url-unwrap conjunct applied to the claim's own url
example. -/
theorem c6_markup_cleaning_witness :
    cleanDescription (some (String.mk
        ("[url=".toList ++ ("http://x".toList ++
          (']' :: ("world".toList ++ "[/url]".toList))))))
      = String.mk (trimChars "world".toList) :=
  c6_markup_cleaning.1 "http://x".toList "world".toList
    (by decide) (by decide)

-- ─── Translation cache gateway: helper lemmas ───

lemma stt_not_mem {c : TagCache} {ps : List (String × String)} {k : String}
    (h : k ∉ ps.map Prod.fst) : setTagTranslations c ps k = c k := by
  induction ps generalizing c with
  | nil => rfl
  | cons p ps ih =>
    simp only [List.map_cons, List.mem_cons] at h
    push_neg at h
    rw [setTagTranslations, ih h.2, upsertTag, if_neg h.1]

lemma stt_congrAt {c₁ c₂ : TagCache} {ps : List (String × String)}
    {k : String} (h : c₁ k = c₂ k) :
    setTagTranslations c₁ ps k = setTagTranslations c₂ ps k := by
  induction ps generalizing c₁ c₂ with
  | nil => exact h
  | cons p ps ih =>
    rw [setTagTranslations, setTagTranslations]
    refine ih ?_
    unfold upsertTag
    by_cases hk : k = p.1
    · rw [if_pos hk, if_pos hk]
    · rw [if_neg hk, if_neg hk]
      exact h

lemma stt_mem {c : TagCache} {ps : List (String × String)} {k : String}
    (h : k ∈ ps.map Prod.fst) : ∃ v, setTagTranslations c ps k = some v := by
  induction ps generalizing c with
  | nil => simp at h
  | cons p ps ih =>
    by_cases hrest : k ∈ ps.map Prod.fst
    · exact ih hrest
    · simp only [List.map_cons, List.mem_cons] at h
      rcases h with h | h
      · refine ⟨p.2, ?_⟩
        rw [setTagTranslations, stt_not_mem hrest, upsertTag, if_pos h]
      · exact absurd h hrest

lemma getTag_mem {c : TagCache} {tags : List String} {t : String}
    (h : t ∈ tags) : getTagTranslations c tags t = c t := by
  simp [getTagTranslations, h]

lemma mem_uncached_iff {c : TagCache} {tags : List String} {t : String} :
    t ∈ uncachedOf c tags ↔ t ∈ tags ∧ c t = none := by
  unfold uncachedOf
  rw [List.mem_filter]
  constructor
  · rintro ⟨ht, h2⟩
    rw [getTag_mem ht] at h2
    exact ⟨ht, Option.isNone_iff_eq_none.1 h2⟩
  · rintro ⟨ht, h2⟩
    refine ⟨ht, ?_⟩
    rw [getTag_mem ht, h2]
    rfl

lemma uncached_ne_nil_tags {c : TagCache} {tags : List String}
    (h : uncachedOf c tags ≠ []) : tags.isEmpty = false := by
  cases htags : tags with
  | nil => subst htags; exact absurd rfl h
  | cons a l => rfl

lemma translateTags_of_no_uncached (tr : List String → Except String (List String))
    (key : String) (tags : List String) (c : TagCache)
    (h : uncachedOf c tags = []) :
    translateTags tr key tags c =
      ⟨tags.map (effGet (getTagTranslations c tags)), c, 0⟩ := by
  unfold translateTags
  cases htags : tags with
  | nil => simp
  | cons a l =>
    rw [← htags]
    rw [if_neg (by rw [htags]; simp)]
    rw [if_neg (by rw [h]; simp)]

lemma translateTags_of_ok (tr : List String → Except String (List String))
    (key : String) (tags : List String) (c : TagCache) (out : List String)
    (hu : uncachedOf c tags ≠ []) (hk : trimS key ≠ "")
    (htr : tr (uncachedOf c tags) = .ok out)
    (hlen : out.length = (uncachedOf c tags).length) :
    translateTags tr key tags c =
      ⟨tags.map (effGet (setTagTranslations (getTagTranslations c tags)
          ((uncachedOf c tags).zip out))),
        setTagTranslations c ((uncachedOf c tags).zip out), 1⟩ := by
  unfold translateTags
  rw [if_neg (by simp [uncached_ne_nil_tags hu])]
  rw [if_pos ⟨hu, hk⟩, htr]
  dsimp only
  rw [if_pos hlen]

lemma translateTags_of_err (tr : List String → Except String (List String))
    (key : String) (tags : List String) (c : TagCache) (e : String)
    (hu : uncachedOf c tags ≠ []) (hk : trimS key ≠ "")
    (htr : tr (uncachedOf c tags) = .error e) :
    translateTags tr key tags c =
      ⟨tags.map (effGet (getTagTranslations c tags)), c, 1⟩ := by
  unfold translateTags
  rw [if_neg (by simp [uncached_ne_nil_tags hu])]
  rw [if_pos ⟨hu, hk⟩, htr]

lemma translateTags_of_mismatch (tr : List String → Except String (List String))
    (key : String) (tags : List String) (c : TagCache) (out : List String)
    (hu : uncachedOf c tags ≠ []) (hk : trimS key ≠ "")
    (htr : tr (uncachedOf c tags) = .ok out)
    (hlen : out.length ≠ (uncachedOf c tags).length) :
    translateTags tr key tags c =
      ⟨tags.map (effGet (getTagTranslations c tags)), c, 1⟩ := by
  unfold translateTags
  rw [if_neg (by simp [uncached_ne_nil_tags hu])]
  rw [if_pos ⟨hu, hk⟩, htr]
  dsimp only
  rw [if_neg hlen]

lemma translateTags_of_no_key (tr : List String → Except String (List String))
    (key : String) (tags : List String) (c : TagCache)
    (hk : trimS key = "") :
    translateTags tr key tags c =
      ⟨tags.map (effGet (getTagTranslations c tags)), c, 0⟩ := by
  unfold translateTags
  cases htags : tags with
  | nil => simp
  | cons a l =>
    rw [← htags]
    rw [if_neg (by rw [htags]; simp)]
    rw [if_neg (by simp [hk])]

/-- In every branch the returned list is the input mapped through a
per-tag map that agrees with the final store on the input tags. -/
lemma translateTags_result_spec (tr : List String → Except String (List String))
    (key : String) (tags : List String) (c : TagCache) :
    ∃ M : TagCache,
      (translateTags tr key tags c).result = tags.map (effGet M) ∧
      ∀ t ∈ tags, M t = (translateTags tr key tags c).cache t := by
  by_cases hk : trimS key = ""
  · rw [translateTags_of_no_key tr key tags c hk]
    exact ⟨getTagTranslations c tags, rfl, fun t ht => getTag_mem ht⟩
  · by_cases hu : uncachedOf c tags = []
    · rw [translateTags_of_no_uncached tr key tags c hu]
      exact ⟨getTagTranslations c tags, rfl, fun t ht => getTag_mem ht⟩
    · cases htr : tr (uncachedOf c tags) with
      | error e =>
        rw [translateTags_of_err tr key tags c e hu hk htr]
        exact ⟨getTagTranslations c tags, rfl, fun t ht => getTag_mem ht⟩
      | ok out =>
        by_cases hlen : out.length = (uncachedOf c tags).length
        · rw [translateTags_of_ok tr key tags c out hu hk htr hlen]
          refine ⟨setTagTranslations (getTagTranslations c tags)
            ((uncachedOf c tags).zip out), rfl, fun t ht => ?_⟩
          exact stt_congrAt (getTag_mem ht)
        · rw [translateTags_of_mismatch tr key tags c out hu hk htr hlen]
          exact ⟨getTagTranslations c tags, rfl, fun t ht => getTag_mem ht⟩

/-- C3. `translateTags` returns a list of exactly the input's length, and
the value at every position is determined by the tag at that position: it
is `cached.get(t) || t` against the final store — hence either that tag's
cached/newly-translated text or the tag itself, never a value attributed
to a different position. -/
theorem c3_translateTags_positional
    (tr : List String → Except String (List String)) (key : String)
    (tags : List String) (c : TagCache) :
    (translateTags tr key tags c).result.length = tags.length ∧
    (∀ (i : Nat) (t v : String), tags[i]? = some t →
      (translateTags tr key tags c).result[i]? = some v →
      v = effGet (translateTags tr key tags c).cache t ∧
        (v = t ∨ (translateTags tr key tags c).cache t = some v)) := by
  obtain ⟨M, hres, hM⟩ := translateTags_result_spec tr key tags c
  constructor
  · rw [hres, List.length_map]
  · intro i t v hit hiv
    rw [hres, List.getElem?_map, hit, Option.map_some'] at hiv
    have ht : t ∈ tags := by
      rw [List.mem_iff_getElem?]
      exact ⟨i, hit⟩
    have hv : v = effGet M t := (Option.some_inj.1 hiv).symm
    have heq : effGet M t = effGet (translateTags tr key tags c).cache t := by
      unfold effGet
      rw [hM t ht]
    refine ⟨hv.trans heq, ?_⟩
    rw [hv.trans heq]
    cases hc : (translateTags tr key tags c).cache t with
    | none => simp [effGet, hc]
    | some zh =>
      by_cases hzh : zh = ""
      · simp [effGet, hc, hzh]
      · simp [effGet, hc, hzh]

/-- C3 (witness): three tags, only `"b"` cached; the middle position is
the cached value, the others their own translations, in input order. -/
theorem c3_translateTags_positional_witness :
    (translateTags demoTr "k" ["a", "b", "c"] demoCache).result.length = 3 ∧
    "乙" = effGet (translateTags demoTr "k" ["a", "b", "c"] demoCache).cache "b" ∧
    (translateTags demoTr "k" ["a", "b", "c"] demoCache).result
      = ["a中", "乙", "c中"] :=
  ⟨(c3_translateTags_positional demoTr "k" ["a", "b", "c"] demoCache).1,
    ((c3_translateTags_positional demoTr "k" ["a", "b", "c"] demoCache).2
      1 "b" "乙" rfl (by decide)).1,
    by decide⟩

lemma uncached_eq_nil {c : TagCache} {tags : List String}
    (h : ∀ t ∈ tags, c t ≠ none) : uncachedOf c tags = [] := by
  unfold uncachedOf
  rw [List.filter_eq_nil_iff]
  intro t ht
  rw [getTag_mem ht]
  simpa using h t ht

/-- C2. With a valid (non-blank) credential and a translator that answers
every batch with a same-length list, two sequential `translateTags` calls
on the same tag list issue at most one external call in total: the first
call makes at most one (and persists what it obtained), the second call
makes none and returns a list identical to the first call's result. -/
theorem c2_translateTags_idempotent
    (tr : List String → Except String (List String)) (key : String)
    (tags : List String) (c : TagCache)
    (hk : trimS key ≠ "")
    (htr : ∀ l : List String, ∃ out, tr l = .ok out ∧ out.length = l.length) :
    (translateTags tr key tags c).calls ≤ 1 ∧
    (translateTags tr key tags (translateTags tr key tags c).cache).calls = 0 ∧
    (translateTags tr key tags (translateTags tr key tags c).cache).result
      = (translateTags tr key tags c).result := by
  by_cases hu : uncachedOf c tags = []
  · rw [translateTags_of_no_uncached tr key tags c hu]
    dsimp only
    rw [translateTags_of_no_uncached tr key tags c hu]
    exact ⟨Nat.zero_le 1, rfl, rfl⟩
  · obtain ⟨out, htro, hlen⟩ := htr (uncachedOf c tags)
    have h1 := translateTags_of_ok tr key tags c out hu hk htro hlen
    have hkeys : ((uncachedOf c tags).zip out).map Prod.fst = uncachedOf c tags :=
      List.map_fst_zip _ _ (le_of_eq hlen.symm)
    have hcov : ∀ t ∈ tags,
        ∃ v, setTagTranslations c ((uncachedOf c tags).zip out) t = some v := by
      intro t ht
      by_cases hct : c t = none
      · exact stt_mem (by rw [hkeys]; exact mem_uncached_iff.2 ⟨ht, hct⟩)
      · obtain ⟨v, hv⟩ := Option.ne_none_iff_exists'.1 hct
        have hnm : t ∉ ((uncachedOf c tags).zip out).map Prod.fst := by
          rw [hkeys]
          intro hmem
          exact hct (mem_uncached_iff.1 hmem).2
        refine ⟨v, ?_⟩
        rw [stt_not_mem hnm, hv]
    have hu2 : uncachedOf
        (setTagTranslations c ((uncachedOf c tags).zip out)) tags = [] := by
      refine uncached_eq_nil fun t ht => ?_
      obtain ⟨v, hv⟩ := hcov t ht
      rw [hv]
      simp
    rw [h1]
    dsimp only
    rw [translateTags_of_no_uncached tr key tags _ hu2]
    refine ⟨le_refl 1, rfl, ?_⟩
    dsimp only
    refine List.map_congr_left ?_
    intro t ht
    have e1 : getTagTranslations
          (setTagTranslations c ((uncachedOf c tags).zip out)) tags t
        = setTagTranslations c ((uncachedOf c tags).zip out) t :=
      getTag_mem ht
    have e2 : setTagTranslations (getTagTranslations c tags)
          ((uncachedOf c tags).zip out) t
        = setTagTranslations c ((uncachedOf c tags).zip out) t :=
      stt_congrAt (getTag_mem ht)
    unfold effGet
    rw [e1, e2]

/-- C2 (witness): the theorem applied to `["cute girls"]` against the
empty store with the demo translator. -/
theorem c2_translateTags_idempotent_witness :
    (translateTags demoTr "k" ["cute girls"] emptyCache).calls ≤ 1 ∧
    (translateTags demoTr "k" ["cute girls"]
      (translateTags demoTr "k" ["cute girls"] emptyCache).cache).calls = 0 ∧
    (translateTags demoTr "k" ["cute girls"]
        (translateTags demoTr "k" ["cute girls"] emptyCache).cache).result
      = (translateTags demoTr "k" ["cute girls"] emptyCache).result :=
  c2_translateTags_idempotent demoTr "k" ["cute girls"] emptyCache
    (by decide) (fun l => ⟨l.map (· ++ "中"), rfl, by simp⟩)

/-- C10. When the uncached batch is non-empty, the credential is valid,
and the translator returns a list: the new pairs are written to the store
and merged into the result only when the returned list has exactly the
batch's length; on a length mismatch nothing is written (the store is
returned unchanged) and every uncached tag comes back as its own source
text. -/
theorem c10_translateTags_length_guard
    (tr : List String → Except String (List String)) (key : String)
    (tags : List String) (c : TagCache) (out : List String)
    (hu : uncachedOf c tags ≠ []) (hk : trimS key ≠ "")
    (htr : tr (uncachedOf c tags) = .ok out) :
    (out.length ≠ (uncachedOf c tags).length →
      (translateTags tr key tags c).cache = c ∧
      ∀ (i : Nat) (t : String), tags[i]? = some t → c t = none →
        (translateTags tr key tags c).result[i]? = some t) ∧
    (out.length = (uncachedOf c tags).length →
      (translateTags tr key tags c).cache
        = setTagTranslations c ((uncachedOf c tags).zip out)) := by
  constructor
  · intro hlen
    rw [translateTags_of_mismatch tr key tags c out hu hk htr hlen]
    refine ⟨rfl, ?_⟩
    intro i t hit hct
    have ht : t ∈ tags := by
      rw [List.mem_iff_getElem?]
      exact ⟨i, hit⟩
    dsimp only
    rw [List.getElem?_map, hit, Option.map_some']
    have : effGet (getTagTranslations c tags) t = t := by
      unfold effGet
      rw [getTag_mem ht, hct]
    rw [this]
  · intro hlen
    rw [translateTags_of_ok tr key tags c out hu hk htr hlen]

/-- C10 (witness): a translator answering two items for a one-item batch
leaves the store untouched and passes the uncached tag through. -/
theorem c10_translateTags_length_guard_witness :
    (translateTags badTr "k" ["a"] demoCache).cache = demoCache ∧
    (translateTags badTr "k" ["a"] demoCache).result[0]? = some "a" :=
  ⟨((c10_translateTags_length_guard badTr "k" ["a"] demoCache ["x", "y"]
      (by decide) (by decide) rfl).1 (by decide)).1,
    ((c10_translateTags_length_guard badTr "k" ["a"] demoCache ["x", "y"]
      (by decide) (by decide) rfl).1 (by decide)).2 0 "a" rfl rfl⟩

/-- C8. The screenshot sub-task attempts only screenshots with
`sexual < 1` and `violence < 1`, at most 4 of them; every returned path is
the successful download of one attempted screenshot; and when exactly one
of four attempted downloads is rejected, the other three paths are
returned in order — `screenshotsTask` is total, so no rejection
escapes. -/
theorem c8_screenshots_resilient :
    (∀ ss : List VndbImage, (safeScreens ss).length ≤ 4 ∧
      ∀ s ∈ safeScreens ss, s.sexual < 1 ∧ s.violence < 1) ∧
    (∀ (ss : List VndbImage) (dl : VndbImage → Except String String)
        (p : String), p ∈ screenshotsTask ss dl →
      ∃ s ∈ safeScreens ss, dl s = .ok p) ∧
    (∀ (ss : List VndbImage) (dl : VndbImage → Except String String)
        (s1 s2 s3 s4 : VndbImage) (e p1 p3 p4 : String),
      safeScreens ss = [s1, s2, s3, s4] →
      dl s1 = .ok p1 → dl s2 = .error e → dl s3 = .ok p3 → dl s4 = .ok p4 →
      screenshotsTask ss dl = [p1, p3, p4]) := by
  refine ⟨?_, ?_, ?_⟩
  · intro ss
    constructor
    · simp [safeScreens]
    · intro s hs
      have hs2 := List.Sublist.mem hs (List.take_sublist _ _)
      have := (List.mem_filter.1 hs2).2
      simpa using this
  · intro ss dl p hp
    unfold screenshotsTask at hp
    by_cases hss : ss.isEmpty
    · rw [if_pos hss] at hp
      exact absurd hp (List.not_mem_nil p)
    · rw [if_neg hss] at hp
      obtain ⟨r, hr, hsome⟩ := List.mem_filterMap.1 hp
      obtain ⟨s, hsm, rfl⟩ := List.mem_map.1 hr
      refine ⟨s, hsm, ?_⟩
      cases hdl : dl s with
      | ok q =>
        rw [hdl] at hsome
        simp only at hsome
        rw [Option.some_inj.1 hsome]
      | error e =>
        rw [hdl] at hsome
        simp at hsome
  · intro ss dl s1 s2 s3 s4 e p1 p3 p4 hsafe h1 h2 h3 h4
    have hss : ss.isEmpty = false := by
      cases hs : ss with
      | nil =>
        rw [hs] at hsafe
        simp [safeScreens] at hsafe
      | cons a l => rfl
    unfold screenshotsTask
    rw [if_neg (by simp [hss]), hsafe]
    simp [h1, h2, h3, h4]

/-- C8 (witness): the one-failure scenario at a concrete four-screenshot
batch. -/
theorem c8_screenshots_resilient_witness :
    screenshotsTask demoShots demoDl = ["s1.png", "s3.png", "s4.png"] :=
  c8_screenshots_resilient.2.2 demoShots demoDl
    (shot "s1") (shot "s2") (shot "s3") (shot "s4")
    "网络错误" "s1.png" "s3.png" "s4.png"
    (by decide) rfl rfl rfl rfl

-- ─── C7 helper lemmas: the bulk-match loop ───

lemma setAt_length {α : Type} (l : List α) (i : Nat) (f : α → α) :
    (setAt l i f).length = l.length := by
  induction l generalizing i with
  | nil => rfl
  | cons x xs ih =>
    cases i with
    | zero => rfl
    | succ n => simp [setAt, ih]

lemma setAt_getElem? {α : Type} (l : List α) (i j : Nat) (f : α → α) :
    (setAt l i f)[j]? = if j = i then (l[j]?).map f else l[j]? := by
  induction l generalizing i j with
  | nil => simp [setAt]
  | cons x xs ih =>
    cases i with
    | zero =>
      cases j with
      | zero => simp [setAt]
      | succ m => simp [setAt]
    | succ n =>
      cases j with
      | zero => simp [setAt]
      | succ m =>
        simp only [setAt, List.getElem?_cons_succ]
        rw [ih n m]
        by_cases h : m = n
        · rw [if_pos h, if_pos (by omega)]
        · rw [if_neg h, if_neg (by omega)]

lemma applyOutcome_matching (it : ImportItem) (o : MatchOutcome) :
    applyOutcome { it with status := ItemStatus.matching } o
      = applyOutcome it o := by
  cases o <;> rfl

lemma matchGo_fst_length (outcome : Nat → MatchOutcome) (total : Nat) :
    ∀ (k i : Nat) (cur : List ImportItem),
      (matchGo outcome total k i cur).1.length = cur.length := by
  intro k
  induction k with
  | zero => intro i cur; rfl
  | succ k ih =>
    intro i cur
    simp only [matchGo]
    rw [ih]
    rw [setAt_length, setAt_length]

lemma matchGo_fst_getElem? (outcome : Nat → MatchOutcome) (total : Nat) :
    ∀ (k i : Nat) (cur : List ImportItem) (j : Nat),
      (matchGo outcome total k i cur).1[j]? =
        if i ≤ j ∧ j < i + k then
          (cur[j]?).map fun it => applyOutcome it (outcome j)
        else cur[j]? := by
  intro k
  induction k with
  | zero =>
    intro i cur j
    rw [if_neg (by omega)]
    rfl
  | succ k ih =>
    intro i cur j
    simp only [matchGo]
    rw [ih (i + 1) _ j, setAt_getElem?, setAt_getElem?]
    by_cases hji : j = i
    · subst hji
      rw [if_pos rfl, if_pos rfl, if_neg (by omega), if_pos (by omega)]
      cases hc : cur[j]? with
      | none => rfl
      | some it => simp [applyOutcome_matching]
    · rw [if_neg hji, if_neg hji]
      by_cases hlt : j < i
      · rw [if_neg (by omega), if_neg (by omega)]
      · by_cases hin : j < i + (k + 1)
        · rw [if_pos (by omega), if_pos (by omega)]
        · rw [if_neg (by omega), if_neg (by omega)]

lemma matchGo_snd (outcome : Nat → MatchOutcome) (total : Nat) :
    ∀ (k i : Nat) (cur : List ImportItem), i + k = total →
      (matchGo outcome total k i cur).2 =
        List.intersperse (MatchEv.delayMs 500)
          ((List.range' i k).map MatchEv.process) := by
  intro k
  induction k with
  | zero => intro i cur h; rfl
  | succ k ih =>
    intro i cur h
    simp only [matchGo]
    rw [ih (i + 1) _ (by omega)]
    rw [List.range'_succ]
    cases k with
    | zero =>
      rw [if_neg (by omega)]
      simp
    | succ m =>
      rw [if_pos (by omega)]
      simp only [List.range'_succ, List.map_cons, List.intersperse_cons_cons]
      rfl

/-- C7. The bulk-match loop processes the detected items strictly in
order, with exactly one fixed 500ms pause between consecutive items and
none after the last (the emitted event trace is the processing events
interspersed with the pause); each final item is its initial item
rewritten by its own outcome only (so one item's exception rewrites only
that item, with the exception detail, and the loop reaches every later
item); and after the loop every processed item's status is `matched` or
`failed`. -/
theorem c7_bulk_matching (items : List ImportItem)
    (outcome : Nat → MatchOutcome) :
    (startMatching items outcome).1.length = items.length ∧
    (startMatching items outcome).2 =
      List.intersperse (MatchEv.delayMs 500)
        ((List.range items.length).map MatchEv.process) ∧
    (∀ i : Nat, i < items.length →
      (startMatching items outcome).1[i]? =
        (items[i]?).map fun it => applyOutcome it (outcome i)) ∧
    (∀ (i : Nat) (e : String), i < items.length → outcome i = .exn e →
      (startMatching items outcome).1[i]? =
        (items[i]?).map fun it =>
          { it with
            status := ItemStatus.failed,
            error := some ("匹配失败: " ++ e) }) ∧
    (∀ (i : Nat) (it : ImportItem),
      (startMatching items outcome).1[i]? = some it →
      it.status = ItemStatus.matched ∨ it.status = ItemStatus.failed) := by
  by_cases h0 : items.length = 0
  · have hnil : items = [] := List.length_eq_zero.1 h0
    subst hnil
    refine ⟨rfl, by simp [startMatching], ?_, ?_, ?_⟩
    · intro i hi
      simp at hi
    · intro i e hi
      simp at hi
    · intro i it hit
      simp [startMatching] at hit
  · have hgo : startMatching items outcome
        = matchGo outcome items.length items.length 0 items := by
      unfold startMatching
      rw [if_neg h0]
    have hget : ∀ i : Nat, i < items.length →
        (startMatching items outcome).1[i]? =
          (items[i]?).map fun it => applyOutcome it (outcome i) := by
      intro i hi
      rw [hgo, matchGo_fst_getElem?, if_pos (by omega)]
    refine ⟨?_, ?_, hget, ?_, ?_⟩
    · rw [hgo, matchGo_fst_length]
    · rw [hgo, matchGo_snd outcome items.length items.length 0 items
        (by omega), List.range_eq_range']
    · intro i e hi hexn
      rw [hget i hi, hexn]
      cases items[i]? with
      | none => rfl
      | some it0 => rfl
    · intro i it hit
      have hi : i < items.length := by
        have hlen : (startMatching items outcome).1.length = items.length := by
          rw [hgo, matchGo_fst_length]
        obtain ⟨hlt, -⟩ := List.getElem?_eq_some.1 hit
        omega
      rw [hget i hi] at hit
      cases hi0 : items[i]? with
      | none =>
        rw [hi0] at hit
        exact absurd hit (by simp)
      | some it0 =>
        rw [hi0, Option.map_some'] at hit
        have hit2 : it = applyOutcome it0 (outcome i) :=
          (Option.some_inj.1 hit).symm
        subst hit2
        cases houtc : outcome i with
        | ok vn cands cover shots desc tags =>
          cases vn with
          | none => simp [applyOutcome]
          | some v => simp [applyOutcome]
        | exn e => simp [applyOutcome]

/-- C7 (witness): a two-item batch where item 0 matches and item 1 throws:
the trace is process-pause-process and item 1 alone fails with the
detail. -/
theorem c7_bulk_matching_witness :
    (startMatching [itemA, itemB] demoOutcome).2
      = [MatchEv.process 0, MatchEv.delayMs 500, MatchEv.process 1] ∧
    (startMatching [itemA, itemB] demoOutcome).1[1]?
      = some { itemB with
               status := ItemStatus.failed,
               error := some ("匹配失败: " ++ "超时") } :=
  ⟨(c7_bulk_matching [itemA, itemB] demoOutcome).2.1.trans (by decide),
   ((c7_bulk_matching [itemA, itemB] demoOutcome).2.2.2.1 1 "超时"
     (by decide) rfl).trans (by decide)⟩

/-- C1 (counterexample). The claim says an item whose match was manually
cleared commits a record whose catalog-derived fields — including
screenshots, tags and notes — are all empty. `clearMatch` resets only the
matched record and the cover, so the committed record of a cleared item
still carries the earlier enrichment's screenshots, translated tags and
translated description. -/
theorem c1_counterexample :
    (clearMatch matchedItem).vndb = none ∧
    (toImportRecord (clearMatch matchedItem)).vndb_id = "" ∧
    (toImportRecord (clearMatch matchedItem)).cover_path = "" ∧
    (toImportRecord (clearMatch matchedItem)).screenshots
      = ["shots/1.jpg", "shots/2.jpg"] ∧
    (toImportRecord (clearMatch matchedItem)).screenshots ≠ [] ∧
    (toImportRecord (clearMatch matchedItem)).tags = ["萌", "恋爱"] ∧
    (toImportRecord (clearMatch matchedItem)).tags ≠ [] ∧
    (toImportRecord (clearMatch matchedItem)).notes = "译文简介" ∧
    (toImportRecord (clearMatch matchedItem)).notes ≠ "" := by
  refine ⟨?_, ?_, ?_, ?_, ?_, ?_, ?_, ?_, ?_⟩ <;> decide

/-- The commit record of an item with no matched catalog record, field by
field. -/
lemma toImportRecord_unmatched (item : ImportItem) (hv : item.vndb = none) :
    (toImportRecord item).title = item.detected.title ∧
    (toImportRecord item).title_original = "" ∧
    (toImportRecord item).vndb_id = "" ∧
    (toImportRecord item).developer = "" ∧
    (toImportRecord item).release_date = "" ∧
    (toImportRecord item).vndb_rating = 0 ∧
    (toImportRecord item).exe_path = item.detected.exe_path ∧
    (toImportRecord item).install_path = item.detected.install_path ∧
    (toImportRecord item).engine = item.detected.engine.getD "" ∧
    (toImportRecord item).cover_path = item.coverPath ∧
    (toImportRecord item).screenshots = item.screenshotPaths ∧
    (toImportRecord item).tags = item.translatedTags ∧
    (toImportRecord item).notes = item.translatedDesc := by
  have htags : (toImportRecord item).tags = item.translatedTags := by
    unfold toImportRecord
    rw [hv]
    dsimp only
    cases htt : item.translatedTags with
    | nil => simp
    | cons a l => simp
  have hnotes : (toImportRecord item).notes = item.translatedDesc := by
    unfold toImportRecord
    rw [hv]
    dsimp only
    by_cases hd : item.translatedDesc = ""
    · rw [if_neg (by simpa using hd), hd]
    · rw [if_pos (by simpa using hd)]
  refine ⟨?_, ?_, ?_, ?_, ?_, ?_, ?_, ?_, ?_, ?_, ?_, htags, hnotes⟩ <;>
    · unfold toImportRecord
      rw [hv]

/-- C1 (amended: a cleared match keeps its earlier enrichment in the
committed record). The commit phase builds exactly one record per item
regardless of status. For an item with no matched record the record
carries the detected folder metadata (title, executable path, install
path, engine) with empty external id, developer, release date and
external rating, while cover, screenshots, tags and notes are the item's
stored enrichment values — all empty for an item that never matched, but
retaining the earlier screenshots, translated tags and translated
description for a manually cleared match (clearing resets only the
matched record and the cover). For matched items the record merges
catalog and enrichment data, and the tag field is the translated tag list
when non-empty, else the raw extracted tags. -/
theorem c1_commit_amended :
    (∀ items : List ImportItem, (commitAll items).length = items.length) ∧
    (∀ item : ImportItem, item.vndb = none →
      (toImportRecord item).title = item.detected.title ∧
      (toImportRecord item).title_original = "" ∧
      (toImportRecord item).vndb_id = "" ∧
      (toImportRecord item).developer = "" ∧
      (toImportRecord item).release_date = "" ∧
      (toImportRecord item).vndb_rating = 0 ∧
      (toImportRecord item).exe_path = item.detected.exe_path ∧
      (toImportRecord item).install_path = item.detected.install_path ∧
      (toImportRecord item).engine = item.detected.engine.getD "" ∧
      (toImportRecord item).cover_path = item.coverPath ∧
      (toImportRecord item).screenshots = item.screenshotPaths ∧
      (toImportRecord item).tags = item.translatedTags ∧
      (toImportRecord item).notes = item.translatedDesc) ∧
    (∀ item : ImportItem, item.vndb = none → item.coverPath = "" →
      item.screenshotPaths = [] → item.translatedTags = [] →
      item.translatedDesc = "" →
      (toImportRecord item).cover_path = "" ∧
      (toImportRecord item).screenshots = [] ∧
      (toImportRecord item).tags = [] ∧
      (toImportRecord item).notes = "") ∧
    (∀ item : ImportItem,
      (clearMatch item).vndb = none ∧
      (clearMatch item).coverPath = "" ∧
      (clearMatch item).screenshotPaths = item.screenshotPaths ∧
      (clearMatch item).translatedTags = item.translatedTags ∧
      (clearMatch item).translatedDesc = item.translatedDesc ∧
      (clearMatch item).status = ItemStatus.failed ∧
      (clearMatch item).error = some "手动跳过") ∧
    (∀ (item : ImportItem) (vn : VndbVn), item.vndb = some vn →
      (toImportRecord item).title = pickDisplayTitle vn ∧
      (toImportRecord item).title_original = pickOriginalTitle vn ∧
      (toImportRecord item).vndb_id = vn.id ∧
      (toImportRecord item).release_date = formatVndbDate vn.released ∧
      (toImportRecord item).cover_path = item.coverPath ∧
      (toImportRecord item).screenshots = item.screenshotPaths ∧
      (toImportRecord item).vndb_rating = vn.rating.getD 0 ∧
      (item.translatedTags ≠ [] →
        (toImportRecord item).tags = item.translatedTags) ∧
      (item.translatedTags = [] →
        (toImportRecord item).tags = extractTags vn.tags 0 8)) := by
  refine ⟨?_, fun item hv => toImportRecord_unmatched item hv, ?_, ?_, ?_⟩
  · intro items
    unfold commitAll
    rw [List.length_map]
  · intro item hv hc hs ht hd
    obtain ⟨-, -, -, -, -, -, -, -, -, h10, h11, h12, h13⟩ :=
      toImportRecord_unmatched item hv
    exact ⟨h10.trans hc, h11.trans hs, h12.trans ht, h13.trans hd⟩
  · intro item
    exact ⟨rfl, rfl, rfl, rfl, rfl, rfl, rfl⟩
  · intro item vn hv
    have htagsne : item.translatedTags ≠ [] →
        (toImportRecord item).tags = item.translatedTags := by
      intro hne
      unfold toImportRecord
      rw [hv]
      dsimp only
      cases htt : item.translatedTags with
      | nil => exact absurd htt hne
      | cons a l => simp
    have htagseq : item.translatedTags = [] →
        (toImportRecord item).tags = extractTags vn.tags 0 8 := by
      intro heq
      unfold toImportRecord
      rw [hv, heq]
      simp
    refine ⟨?_, ?_, ?_, ?_, ?_, ?_, ?_, htagsne, htagseq⟩ <;>
      · unfold toImportRecord
        rw [hv]

/-- C1 (witness): the amended theorem at the cleared `matchedItem` (tags
persist) and at the matched `matchedItem` (translated tags win). -/
theorem c1_commit_amended_witness :
    (toImportRecord (clearMatch matchedItem)).tags
      = (clearMatch matchedItem).translatedTags ∧
    (toImportRecord matchedItem).tags = ["萌", "恋爱"] :=
  ⟨(c1_commit_amended.2.1 (clearMatch matchedItem) rfl).2.2.2.2.2.2.2.2.2.2.2.1,
   (c1_commit_amended.2.2.2.2 matchedItem vnZhJa rfl).2.2.2.2.2.2.2.1
     (by decide)⟩

-- ─── C9 helper lemmas: playtime bookkeeping ───

lemma find?_filter_of_imp {α : Type} {p q : α → Bool}
    (h : ∀ x, p x = true → q x = true) (l : List α) :
    (l.filter q).find? p = l.find? p := by
  induction l with
  | nil => rfl
  | cons x xs ih =>
    by_cases hq : q x = true
    · rw [List.filter_cons_of_pos hq]
      by_cases hp : p x = true
      · rw [List.find?_cons_of_pos _ hp, List.find?_cons_of_pos _ hp]
      · rw [List.find?_cons_of_neg _ (by simpa using hp),
          List.find?_cons_of_neg _ (by simpa using hp)]
        exact ih
    · have hp : ¬ p x = true := fun hpx => hq (h x hpx)
      rw [List.filter_cons_of_neg (by simpa using hq),
        List.find?_cons_of_neg _ (by simpa using hp)]
      exact ih

lemma filter_filter_of_imp {α : Type} {p q : α → Bool}
    (h : ∀ x, p x = true → q x = true) (l : List α) :
    (l.filter q).filter p = l.filter p := by
  induction l with
  | nil => rfl
  | cons x xs ih =>
    by_cases hq : q x = true
    · rw [List.filter_cons_of_pos hq]
      by_cases hp : p x = true
      · rw [List.filter_cons_of_pos hp, List.filter_cons_of_pos hp, ih]
      · rw [List.filter_cons_of_neg (by simpa using hp),
          List.filter_cons_of_neg (by simpa using hp)]
        exact ih
    · have hp : ¬ p x = true := fun hpx => hq (h x hpx)
      rw [List.filter_cons_of_neg (by simpa using hq),
        List.filter_cons_of_neg (by simpa using hp)]
      exact ih

lemma find?_map_id_pres {f : GameRow → GameRow}
    (hid : ∀ g, (f g).id = g.id) (l : List GameRow) (gid : String) :
    (l.map f).find? (fun g => g.id = gid)
      = (l.find? fun g => g.id = gid).map f := by
  rw [List.find?_map]
  have hfun : ((fun g : GameRow => decide (g.id = gid)) ∘ f)
      = fun g : GameRow => decide (g.id = gid) := by
    funext g
    simp [Function.comp, hid g]
  rw [hfun]

/-- One operation other than deleting the entry preserves the invariant
"stored total = sum of the entry's session durations", and shifts both
sides by exactly the inserted duration on a play insert for the entry. -/
lemma applyLibOp_inv (s : DbState) (gid : String) (op : LibOp)
    (hop : op ≠ LibOp.delete gid)
    (hinv : totalOf s gid = some (sessionSum s gid)) :
    totalOf (applyLibOp s op) gid
        = some (sessionSum (applyLibOp s op) gid) ∧
    sessionSum (applyLibOp s op) gid
        = sessionSum s gid + (playDurs [op] gid).sum := by
  obtain ⟨g, hg, hgt⟩ : ∃ g, ((s.games.find? fun x => x.id = gid) = some g)
      ∧ g.total_playtime = sessionSum s gid := by
    unfold totalOf at hinv
    cases hf : s.games.find? fun x => x.id = gid with
    | none =>
      rw [hf] at hinv
      exact absurd hinv (by simp)
    | some g =>
      rw [hf] at hinv
      exact ⟨g, rfl, Option.some_inj.1 hinv⟩
  cases op with
  | newGame id now data =>
    have hsess : sessionSum (addGame s id now data) gid = sessionSum s gid := rfl
    have hfind : totalOf (addGame s id now data) gid
        = some g.total_playtime := by
      unfold totalOf addGame
      dsimp only
      rw [List.find?_append, hg]
      rfl
    refine ⟨?_, ?_⟩
    · show totalOf (addGame s id now data) gid
        = some (sessionSum (addGame s id now data) gid)
      rw [hfind, hsess, hgt]
    · show sessionSum (addGame s id now data) gid
        = sessionSum s gid + (playDurs [LibOp.newGame id now data] gid).sum
      rw [hsess]
      show sessionSum s gid = sessionSum s gid + ([] : List Int).sum
      simp
  | update id now patch =>
    have hid : ∀ x : GameRow,
        ((fun g : GameRow => if g.id = id
          then { g with data := patch g.data, updated_at := now }
          else g) x).id = x.id := by
      intro x
      by_cases hx : x.id = id <;> simp [hx]
    have hsess : sessionSum (updateGame s id now patch) gid
        = sessionSum s gid := rfl
    have hfind : totalOf (updateGame s id now patch) gid
        = some g.total_playtime := by
      unfold totalOf updateGame
      dsimp only
      rw [find?_map_id_pres hid, hg, Option.map_some', Option.map_some']
      by_cases hx : g.id = id <;> simp [hx]
    refine ⟨?_, ?_⟩
    · show totalOf (updateGame s id now patch) gid
        = some (sessionSum (updateGame s id now patch) gid)
      rw [hfind, hsess, hgt]
    · show sessionSum (updateGame s id now patch) gid
        = sessionSum s gid + (playDurs [LibOp.update id now patch] gid).sum
      rw [hsess]
      show sessionSum s gid = sessionSum s gid + ([] : List Int).sum
      simp
  | delete id =>
    have hne : ¬ id = gid := by
      intro h
      exact hop (by rw [h])
    have himp : ∀ x : GameRow, decide (x.id = gid) = true →
        decide (x.id ≠ id) = true := by
      intro x hx
      simp only [decide_eq_true_eq] at hx ⊢
      rw [hx]
      exact fun h => hne h.symm
    have himps : ∀ x : SessionRow, decide (x.game_id = gid) = true →
        decide (x.game_id ≠ id) = true := by
      intro x hx
      simp only [decide_eq_true_eq] at hx ⊢
      rw [hx]
      exact fun h => hne h.symm
    have hsess : sessionSum (deleteGame s id) gid = sessionSum s gid := by
      unfold sessionSum deleteGame
      dsimp only
      rw [filter_filter_of_imp himps]
    have hfind : totalOf (deleteGame s id) gid = some g.total_playtime := by
      unfold totalOf deleteGame
      dsimp only
      rw [find?_filter_of_imp himp, hg]
      rfl
    refine ⟨?_, ?_⟩
    · show totalOf (deleteGame s id) gid
        = some (sessionSum (deleteGame s id) gid)
      rw [hfind, hsess, hgt]
    · show sessionSum (deleteGame s id) gid
        = sessionSum s gid + (playDurs [LibOp.delete id] gid).sum
      rw [hsess]
      show sessionSum s gid = sessionSum s gid + ([] : List Int).sum
      simp
  | play sid gid2 st et now d =>
    have hid : ∀ x : GameRow,
        ((fun g : GameRow => if g.id = gid2
          then { g with
                 total_playtime := g.total_playtime + d, updated_at := now }
          else g) x).id = x.id := by
      intro x
      by_cases hx : x.id = gid2 <;> simp [hx]
    have hgp : g.id = gid := by
      have hpg := List.find?_some hg
      simpa using hpg
    have hsess : sessionSum (addPlaySession s sid gid2 st et now d) gid
        = sessionSum s gid + (if gid2 = gid then d else 0) := by
      unfold sessionSum addPlaySession
      dsimp only
      rw [List.filter_append, List.map_append, List.sum_append]
      by_cases hgg : gid2 = gid
      · rw [if_pos hgg]
        have hone : (([⟨sid, gid2, st, some et, d⟩] : List SessionRow).filter
            fun r => r.game_id = gid) = [⟨sid, gid2, st, some et, d⟩] := by
          simp [hgg]
        rw [hone]
        simp
      · rw [if_neg hgg]
        have hnone : (([⟨sid, gid2, st, some et, d⟩] : List SessionRow).filter
            fun r => r.game_id = gid) = [] := by
          simp [hgg]
        rw [hnone]
        simp
    have hfind : totalOf (addPlaySession s sid gid2 st et now d) gid
        = some (g.total_playtime + (if gid2 = gid then d else 0)) := by
      unfold totalOf addPlaySession
      dsimp only
      rw [find?_map_id_pres hid, hg, Option.map_some', Option.map_some']
      by_cases hx : g.id = gid2
      · have hgg : gid2 = gid := by rw [← hx, hgp]
        rw [if_pos hgg]
        simp [hx]
      · have hgg : ¬ gid2 = gid := by
          intro h
          exact hx (by rw [h, hgp])
        rw [if_neg hgg]
        simp [hx]
    have hdurs : (playDurs [LibOp.play sid gid2 st et now d] gid).sum
        = (if gid2 = gid then d else 0) := by
      unfold playDurs
      by_cases hgg : gid2 = gid <;> simp [hgg]
    refine ⟨?_, ?_⟩
    · show totalOf (addPlaySession s sid gid2 st et now d) gid
        = some (sessionSum (addPlaySession s sid gid2 st et now d) gid)
      rw [hfind, hsess, hgt]
    · show sessionSum (addPlaySession s sid gid2 st et now d) gid
        = sessionSum s gid
          + (playDurs [LibOp.play sid gid2 st et now d] gid).sum
      rw [hsess, hdurs]

/-- C9. `addGame` creates an entry with stored total 0; and whenever an
entry's stored total equals the sum of its persisted session durations,
then after any sequence of operations (game inserts, partial form
updates, other entries' deletions, play-session inserts for any entry)
that does not delete this entry, the stored total equals the old sum plus
exactly the durations of the play-session inserts for this entry — each
`addPlaySession` adds its own duration, and no other operation changes
the total. -/
theorem c9_total_playtime_invariant :
    (∀ (s : DbState) (id now : String) (data : GameFormData),
      (s.games.find? fun g => g.id = id) = none →
      totalOf (addGame s id now data) id = some 0 ∧
      sessionSum (addGame s id now data) id = sessionSum s id) ∧
    (∀ (s : DbState) (gid : String) (ops : List LibOp),
      totalOf s gid = some (sessionSum s gid) →
      LibOp.delete gid ∉ ops →
      totalOf (applyLibOps s ops) gid
          = some (sessionSum s gid + (playDurs ops gid).sum) ∧
      sessionSum (applyLibOps s ops) gid
          = sessionSum s gid + (playDurs ops gid).sum) := by
  constructor
  · intro s id now data hfresh
    constructor
    · unfold totalOf addGame
      dsimp only
      rw [List.find?_append, hfresh]
      simp
    · rfl
  · intro s gid ops
    induction ops generalizing s with
    | nil =>
      intro hinv hnotin
      have happ : applyLibOps s [] = s := rfl
      refine ⟨?_, ?_⟩
      · rw [happ, hinv]
        simp [playDurs]
      · rw [happ]
        simp [playDurs]
    | cons op rest ih =>
      intro hinv hnotin
      have hop : op ≠ LibOp.delete gid := by
        intro h
        exact hnotin (h ▸ List.mem_cons_self op rest)
      have hrest : LibOp.delete gid ∉ rest := by
        intro h
        exact hnotin (List.mem_cons_of_mem op h)
      obtain ⟨hinv1, hshift⟩ := applyLibOp_inv s gid op hop hinv
      obtain ⟨ht, hs⟩ := ih (applyLibOp s op) hinv1 hrest
      have hsplit : playDurs (op :: rest) gid
          = playDurs [op] gid ++ playDurs rest gid := by
        unfold playDurs
        rw [List.filterMap_cons, List.filterMap_cons]
        cases hm : (match op with
          | LibOp.play _ g _ _ _ d => if g = gid then some d else none
          | _ => none) with
        | none => simp
        | some v => simp
      have happ : applyLibOps s (op :: rest)
          = applyLibOps (applyLibOp s op) rest := rfl
      refine ⟨?_, ?_⟩
      · rw [happ, ht, hshift, hsplit, List.sum_append]
        rw [add_assoc]
      · rw [happ, hs, hshift, hsplit, List.sum_append]
        rw [add_assoc]

/-- C9 (witness): a freshly created entry, then two play-session inserts
of 300s and 450s — the stored total is 750. -/
theorem c9_total_playtime_invariant_witness :
    totalOf (applyLibOps (addGame emptyDb "g1" "t0" demoForm)
        [LibOp.play "p1" "g1" "a" "b" "t1" 300,
         LibOp.play "p2" "g1" "c" "d" "t2" 450]) "g1" = some 750 :=
  ((c9_total_playtime_invariant.2 (addGame emptyDb "g1" "t0" demoForm) "g1"
      [LibOp.play "p1" "g1" "a" "b" "t1" 300,
       LibOp.play "p2" "g1" "c" "d" "t2" 450]
      (by decide) (by simp)).1).trans (by decide)
